import Mathlib

/-!
# Verification of the airdrop rule-matching / scheduled-execution engine

Shallow embedding of the relevant parts of `rules-engine.ts` (RulesEngine)
and `airdrop-lit-monitor.ts` (LitAirdropMonitor).  JavaScript strings are
modelled as `List Char` (wrapped in `String` where convenient), JS `Map`s
as association lists with insert-or-replace semantics, timestamps
(`Date.now()`, ISO strings parsed back with `new Date`) as natural-number
millisecond counts.  JS numbers produced by `parseFloat` are modelled as
exact decimals `(mantissa : ℤ, scale : ℕ)` standing for `mantissa / 10^scale`
(`NaN` is `Option.none`, and every JS comparison against `NaN` is false);
`decimalLtNat` below is proved equal to the rational-number comparison.
-/

namespace Airdrop

/-- Numeric value of a list of decimal digit characters, as computed by JS
`parseInt` on an all-digit string: left fold `10*acc + digit`. -/
def natOfDigits (l : List Char) : ℕ :=
  l.foldl (fun a c => 10 * a + (c.toNat - 48)) 0

/-- Fuel-driven decimal rendering (fuel `n+1` always suffices since the
argument at least halves each step). -/
def decimalDigitsAux : ℕ → ℕ → List Char
  | 0, _ => []
  | f + 1, n =>
    if n < 10 then [Nat.digitChar n]
    else decimalDigitsAux f (n / 10) ++ [Nat.digitChar (n % 10)]

/-- Decimal-digit rendering of a natural number, most significant digit
first; models the string interpolation of a JS number (`Date.now()` in the
`rule_${...}` / `exec_${...}` id templates). -/
def decimalDigits (n : ℕ) : List Char := decimalDigitsAux (n + 1) n

theorem natOfDigits_append_digit (xs : List Char) (c : Char) :
    natOfDigits (xs ++ [c]) = 10 * natOfDigits xs + (c.toNat - 48) := by
  simp [natOfDigits]

theorem digitChar_toNat_sub (d : ℕ) (h : d < 10) :
    (Nat.digitChar d).toNat - 48 = d := by
  interval_cases d <;> decide

theorem natOfDigits_decimalDigitsAux (f n : ℕ) (h : n < f) :
    natOfDigits (decimalDigitsAux f n) = n := by
  induction f generalizing n with
  | zero => omega
  | succ f ih =>
    rw [decimalDigitsAux]
    by_cases h10 : n < 10
    · simp only [h10, if_pos]
      simpa [natOfDigits] using digitChar_toNat_sub n h10
    · simp only [h10, if_neg, not_false_iff]
      rw [natOfDigits_append_digit, ih (n / 10) (by omega),
        digitChar_toNat_sub (n % 10) (Nat.mod_lt n (by norm_num))]
      omega

/-- Decimal rendering round-trips through digit parsing; in particular the
rendering is injective. -/
theorem natOfDigits_decimalDigits (n : ℕ) :
    natOfDigits (decimalDigits n) = n :=
  natOfDigits_decimalDigitsAux (n + 1) n (Nat.lt_succ_self n)

theorem decimalDigits_injective : Function.Injective decimalDigits := by
  intro a b h
  have ha := natOfDigits_decimalDigits a
  rw [h, natOfDigits_decimalDigits] at ha
  omega

/-- JS `String.prototype.includes`: `hay` contains `needle` as a contiguous
substring. -/
def listContains (needle hay : List Char) : Bool :=
  match hay with
  | [] => needle.isEmpty
  | _ :: t => needle.isPrefixOf hay || listContains needle t

/-- Character-level lowercasing, modelling JS `toLowerCase` on the ASCII
project names used by the code. -/
def lowerChars (l : List Char) : List Char := l.map Char.toLower

/-- The literal prefix of the regex `/estimatedValue > (\d+)/`. -/
def valuePatternLit : List Char := "estimatedValue > ".data

/-- First match of the regex `/estimatedValue > (\d+)/` in `s`, returning
the `parseInt` of the (greedy) captured digit run: scan left to right for
the first position where the literal prefix is followed by at least one
digit. -/
def findValueThreshold (s : List Char) : Option ℕ :=
  match s with
  | [] => none
  | _ :: t =>
    if valuePatternLit.isPrefixOf s then
      let ds := (s.drop valuePatternLit.length).takeWhile Char.isDigit
      if ds.isEmpty then findValueThreshold t else some (natOfDigits ds)
    else findValueThreshold t

/-- The literal prefix of the regex `/price > (\d+)/`. -/
def pricePatternLit : List Char := "price > ".data

/-- First match of `/price > (\d+)/`, same scanning semantics. -/
def findPriceThreshold (s : List Char) : Option ℕ :=
  match s with
  | [] => none
  | _ :: t =>
    if pricePatternLit.isPrefixOf s then
      let ds := (s.drop pricePatternLit.length).takeWhile Char.isDigit
      if ds.isEmpty then findPriceThreshold t else some (natOfDigits ds)
    else findPriceThreshold t

/-- An exact decimal `mantissa / 10^scale`, the result shape of JS
`parseFloat` on the decimal literals this codebase feeds it. -/
structure DecimalNum where
  mantissa : ℤ
  scale : ℕ
  deriving DecidableEq, Repr

/-- The rational value of a `DecimalNum`. -/
def DecimalNum.toQ (v : DecimalNum) : ℚ := (v.mantissa : ℚ) / (10 ^ v.scale : ℕ)

/-- JS `n < v` for a plain natural threshold `n` against a parsed decimal,
computed in exact integer arithmetic. -/
def decimalLtNat (n : ℕ) (v : DecimalNum) : Bool :=
  decide ((n : ℤ) * 10 ^ v.scale < v.mantissa)

/-- The integer comparison agrees with the rational one. -/
theorem decimalLtNat_iff (n : ℕ) (v : DecimalNum) :
    decimalLtNat n v = true ↔ (n : ℚ) < v.toQ := by
  have hpow : (0 : ℚ) < ((10 : ℕ) ^ v.scale : ℕ) := by positivity
  rw [decimalLtNat, decide_eq_true_iff, DecimalNum.toQ, lt_div_iff₀ hpow]
  rw [show ((n : ℚ) * ((10:ℕ) ^ v.scale : ℕ) : ℚ) = (((n : ℤ) * 10 ^ v.scale : ℤ) : ℚ) by
    push_cast; ring]
  exact_mod_cast Iff.rfl

/-- JS `v < n` (used by the spending/price comparisons in the other
direction). -/
def decimalGtNat (n : ℕ) (v : DecimalNum) : Bool :=
  decide (v.mantissa > (n : ℤ) * 10 ^ v.scale)

/-- JS `parseFloat` restricted to the shapes the engine feeds it (optional
leading spaces, optional sign, integer part, optional fractional part; no
exponents appear in this codebase).  `none` models `NaN`. -/
def parseFloatDec (l : List Char) : Option DecimalNum :=
  let l₁ := l.dropWhile (· = ' ')
  let neg : Bool := l₁.headD 'x' = '-'
  let l₂ := if l₁.headD 'x' = '-' ∨ l₁.headD 'x' = '+' then l₁.tail else l₁
  let ip := l₂.takeWhile Char.isDigit
  let rest := l₂.drop ip.length
  let fp := if rest.headD 'x' = '.' then rest.tail.takeWhile Char.isDigit else []
  if ip.isEmpty && fp.isEmpty then none
  else
    let m : ℤ := (natOfDigits ip * 10 ^ fp.length + natOfDigits fp : ℕ)
    some ⟨if neg then -m else m, fp.length⟩

/-- `estimatedValue.replace(/[$,]/g, "")`: drop every `$` and `,`. -/
def stripDollarComma (l : List Char) : List Char :=
  l.filter (fun c => !(c = '$' || c = ','))

/-- The numeric value the engine compares against a threshold:
`parseFloat(opp.estimatedValue.replace(/[$,]/g, ""))`. -/
def parsedEstimatedValue (estimatedValue : List Char) : Option DecimalNum :=
  parseFloatDec (stripDollarComma estimatedValue)

/-- `oppValue > minValue` with `NaN` comparing false. -/
def valueExceeds (estimatedValue : List Char) (minValue : ℕ) : Bool :=
  match parsedEstimatedValue estimatedValue with
  | none => false
  | some v => decimalLtNat minValue v

example : natOfDigits "500".data = 500 := by decide
example : decimalDigits 1024 = "1024".data := by decide
example : listContains "a = 'b'".data "x AND a = 'b'".data = true := by decide
example : findValueThreshold "chain = 'zksync' AND estimatedValue > 500".data
    = some 500 := by decide
example : parsedEstimatedValue "$500-2000".data = some ⟨500, 0⟩ := by decide
example : parseFloatDec "0.5".data = some ⟨5, 1⟩ := by decide
example : valueExceeds "$1000-5000".data 500 = true := by decide
example : valueExceeds "$500-2000".data 500 = false := by decide
example : valueExceeds "TBD".data 500 = false := by decide

end Airdrop

namespace Airdrop

/-! ## Data model (`rules-engine.ts`, `airdrop-lit-monitor.ts` interfaces) -/

/-- A loosely-typed JSON-ish parameter value as stored in
`litActionParameters` (the source stores strings and small numbers). -/
inductive JValue where
  | str (s : String)
  | num (n : ℕ)
  deriving DecidableEq, Repr

/-- `AirdropRule.trigger` union type. -/
inductive Trigger where
  | new_airdrop
  | price_threshold
  | volume_spike
  | time_based
  deriving DecidableEq, Repr

/-- `AirdropOpportunity.status` union type. -/
inductive OppStatus where
  | active
  | expired
  | completed
  deriving DecidableEq, Repr

/-- `AirdropOpportunity.difficulty` union type. -/
inductive Difficulty where
  | easy
  | medium
  | hard
  deriving DecidableEq, Repr

/-- `litActionStatus` union type on an opportunity. -/
inductive LitStatus where
  | pending
  | running
  | completed
  | failed
  deriving DecidableEq, Repr

/-- `LitActionExecutionResult` from `rules-engine.ts`; `timestamp` is the
millisecond clock at result creation. -/
structure LitActionExecutionResult where
  success : Bool
  txHash : Option String := none
  gasUsed : Option ℕ := none
  cost : Option String := none
  executionTime : Option ℕ := none
  error : Option String := none
  timestamp : ℕ
  deriving DecidableEq, Repr

/-- The `data` payload of an executor response (`result.data?.txHash` etc.). -/
structure LitData where
  txHash : Option String := none
  gasUsed : Option ℕ := none
  cost : Option String := none
  deriving DecidableEq, Repr

/-- `LitActionResult`, the resolved value of `executeLitAction` in
`lit-actions-executor.ts`.  That function wraps its whole body in
`try/catch` and returns `{success:false, error, executionTime}` from the
catch, so it always resolves with a value of this shape. -/
structure LitActionResult where
  success : Bool
  data : Option LitData := none
  error : Option String := none
  executionTime : ℕ
  deriving DecidableEq, Repr

/-- `AirdropOpportunity` from `airdrop-lit-monitor.ts`; `deadline` is the
parsed millisecond timestamp of the ISO deadline string, and
`litActionResult` holds the execution result stored on success. -/
structure AirdropOpportunity where
  id : String
  name : String
  chain : String
  project : String
  requirements : List String
  estimatedValue : String
  deadline : ℕ
  status : OppStatus
  difficulty : Difficulty
  gasCost : String
  timeRequired : String
  litActionExecutionId : Option String := none
  litActionStatus : Option LitStatus := none
  litActionResult : Option LitActionExecutionResult := none
  deriving DecidableEq, Repr

/-- `AirdropRule` from `rules-engine.ts`.  `action` is a TS union of five
string literals, but at runtime it is an unconstrained string and
`mapActionToLitActionTemplate` has a `default:` branch for anything else,
so it is modelled as `String`.  `lastExecuted` is the parsed timestamp of
the stored ISO string. -/
structure AirdropRule where
  id : String
  name : String
  trigger : Trigger
  condition : String
  action : String
  amount : String
  chain : String
  enabled : Bool
  lastExecuted : Option ℕ := none
  executions : ℕ
  profit : Option String := none
  litActionTemplateId : Option String := none
  litActionParameters : Option (List (String × JValue)) := none
  litActionExecutionId : Option String := none
  litActionIPFSCID : Option String := none
  litActionLastExecution : Option LitActionExecutionResult := none
  deriving DecidableEq, Repr

/-- `marketData` part of a `RuleExecutionContext`. -/
structure MarketData where
  price : String
  volume : String
  change24h : String
  deriving DecidableEq, Repr

/-- `timeData` part of a `RuleExecutionContext`. -/
structure TimeData where
  hour : ℕ
  day : ℕ
  week : ℕ
  deriving DecidableEq, Repr

/-- `RuleExecutionContext` from `rules-engine.ts`. -/
structure RuleExecutionContext where
  airdropOpportunity : Option AirdropOpportunity := none
  marketData : Option MarketData := none
  timeData : Option TimeData := none
  deriving DecidableEq, Repr

/-! ## JS `Map` as an insert-order association list -/

/-- `Map.set`: replace in place if the key exists, else append at the end
(JS maps preserve insertion order). -/
def mapSet {β : Type} (k : String) (v : β) : List (String × β) → List (String × β)
  | [] => [(k, v)]
  | (k', v') :: t => if k' = k then (k, v) :: t else (k', v') :: mapSet k v t

/-- `Map.get`: first entry with the given key. -/
def mapGet {β : Type} (k : String) : List (String × β) → Option β
  | [] => none
  | (k', v) :: t => if k' = k then some v else mapGet k t

theorem mapGet_mapSet_self {β : Type} (k : String) (v : β) (m : List (String × β)) :
    mapGet k (mapSet k v m) = some v := by
  induction m with
  | nil => simp [mapSet, mapGet]
  | cons p t ih =>
    obtain ⟨k', v'⟩ := p
    by_cases h : k' = k <;> simp [mapSet, mapGet, h, ih]

theorem mapGet_mapSet_ne {β : Type} (k k' : String) (v : β) (m : List (String × β))
    (h : k' ≠ k) : mapGet k' (mapSet k v m) = mapGet k' m := by
  have h' : ¬ k = k' := fun hh => h hh.symm
  induction m with
  | nil => simp [mapSet, mapGet, h']
  | cons p t ih =>
    obtain ⟨k₀, v₀⟩ := p
    by_cases h₀ : k₀ = k
    · subst h₀
      simp [mapSet, mapGet, h']
    · by_cases hk : k₀ = k'
      · simp [mapSet, mapGet, h₀, hk, h]
      · simp [mapSet, mapGet, h₀, hk, ih]

end Airdrop

namespace Airdrop

/-! ## `RulesEngine` (`rules-engine.ts`) -/

/-- The mutable state of the `RulesEngine` singleton that the verified
operations touch: the `rules` map and the `executionHistory` map. -/
structure EngineState where
  rules : List (String × AirdropRule)
  executionHistory : List (String × List LitActionExecutionResult)
  deriving DecidableEq, Repr

/-- The substring pattern `` `chain = '${opp.chain}'` ``. -/
def chainPattern (opp : AirdropOpportunity) : List Char :=
  "chain = '".data ++ opp.chain.data ++ "'".data

/-- The substring pattern `` `project = '${opp.project.toLowerCase()}'` ``. -/
def projectPattern (opp : AirdropOpportunity) : List Char :=
  "project = '".data ++ lowerChars opp.project.data ++ "'".data

/-- The `new_airdrop` block of `checkRuleConditions`: `some b` models a
`return b` inside the block, `none` models falling through to the next
block. -/
def checkOppBlock (rule : AirdropRule) (ctx : RuleExecutionContext) : Option Bool :=
  match ctx.airdropOpportunity with
  | none => none
  | some opp =>
    if rule.trigger = Trigger.new_airdrop then
      if listContains (chainPattern opp) rule.condition.data then some true
      else if listContains (projectPattern opp) rule.condition.data then some true
      else
        match findValueThreshold rule.condition.data with
        | some minValue => some (valueExceeds opp.estimatedValue.data minValue)
        | none => none
    else none

/-- The `price_threshold` block of `checkRuleConditions`. -/
def checkPriceBlock (rule : AirdropRule) (ctx : RuleExecutionContext) : Option Bool :=
  match ctx.marketData with
  | none => none
  | some md =>
    if rule.trigger = Trigger.price_threshold then
      match findPriceThreshold rule.condition.data with
      | some threshold =>
        some (match parseFloatDec md.price.data with
          | none => false
          | some price => decimalLtNat threshold price)
      | none => none
    else none

/-- The `time_based` block of `checkRuleConditions`. -/
def checkTimeBlock (rule : AirdropRule) (ctx : RuleExecutionContext) : Option Bool :=
  match ctx.timeData with
  | none => none
  | some td =>
    if rule.trigger = Trigger.time_based then
      if listContains ("hour = ".data ++ decimalDigits td.hour) rule.condition.data then
        some true
      else if listContains "day % 7 = 0".data rule.condition.data then
        some (td.day % 7 = 0)
      else none
    else none

/-- `RulesEngine.checkRuleConditions`: three trigger-specific blocks in
sequence, final `return false`.  The body's `try/catch` never fires — every
operation in it is total — so the catch's `return false` is unreachable. -/
def checkRuleConditions (rule : AirdropRule) (ctx : RuleExecutionContext) : Bool :=
  match checkOppBlock rule ctx with
  | some b => b
  | none =>
    match checkPriceBlock rule ctx with
    | some b => b
    | none =>
      match checkTimeBlock rule ctx with
      | some b => b
      | none => false

/-- `RulesEngine.shouldExecuteRule`: skip while inside the one-hour
window after `lastExecuted`, otherwise defer to the condition check.  The
`getTime()` difference is signed, hence the `ℤ` comparison. -/
def shouldExecuteRule (rule : AirdropRule) (ctx : RuleExecutionContext) (now : ℕ) : Bool :=
  match rule.lastExecuted with
  | some t => if (now : ℤ) - (t : ℤ) < 3600000 then false else checkRuleConditions rule ctx
  | none => checkRuleConditions rule ctx

/-- `RulesEngine.mapActionToLitActionTemplate`: switch on the action
string; the `default:` branch only logs a warning and changes nothing. -/
def mapActionToLitActionTemplate (r : AirdropRule) : AirdropRule :=
  if r.action = "bridge" then
    { r with litActionTemplateId := some "bridge-action",
             litActionParameters := some [
               ("fromChain", JValue.str "ethereum"),
               ("toChain", JValue.str r.chain),
               ("amount", JValue.str r.amount),
               ("bridgeProtocol", JValue.str "layerzero"),
               ("tokenAddress", JValue.str "native")] }
  else if r.action = "swap" then
    { r with litActionTemplateId := some "swap-action",
             litActionParameters := some [
               ("chain", JValue.str r.chain),
               ("tokenIn", JValue.str "0x0000000000000000000000000000000000000000"),
               ("tokenOut", JValue.str "0xA0b86a33E6441b8C4C8C0C4C8C0C4C8C0C4C8C0C"),
               ("amount", JValue.str r.amount),
               ("dex", JValue.str "uniswap-v3"),
               ("slippage", JValue.str "0.5")] }
  else if r.action = "stake" then
    { r with litActionTemplateId := some "stake-action",
             litActionParameters := some [
               ("chain", JValue.str r.chain),
               ("protocol", JValue.str "lido"),
               ("amount", JValue.str r.amount),
               ("token", JValue.str "native")] }
  else if r.action = "bridge_and_swap" then
    { r with litActionTemplateId := some "airdrop-hunter-action",
             litActionParameters := some [
               ("maxGasPrice", JValue.str "50"),
               ("maxSlippage", JValue.str "0.5"),
               ("retryAttempts", JValue.num 3)] }
  else if r.action = "interact_contract" then
    { r with litActionTemplateId := some "airdrop-hunter-action",
             litActionParameters := some [
               ("maxGasPrice", JValue.str "50"),
               ("maxSlippage", JValue.str "0.5"),
               ("retryAttempts", JValue.num 3)] }
  else r

/-- The rule draft passed to `addRule` (`Omit<AirdropRule, "id" | "executions">`). -/
structure RuleDraft where
  name : String
  trigger : Trigger
  condition : String
  action : String
  amount : String
  chain : String
  enabled : Bool
  lastExecuted : Option ℕ := none
  profit : Option String := none
  litActionTemplateId : Option String := none
  litActionParameters : Option (List (String × JValue)) := none
  litActionExecutionId : Option String := none
  litActionIPFSCID : Option String := none
  litActionLastExecution : Option LitActionExecutionResult := none
  deriving DecidableEq, Repr

/-- The id template `` `rule_${Date.now()}` ``. -/
def ruleIdOfTime (now : ℕ) : String := "rule_" ++ String.mk (decimalDigits now)

/-- `RulesEngine.addRule`: spread the draft, overwrite `id` with
`rule_${Date.now()}` and `executions` with 0, derive the template mapping,
then `Map.set`.  There is no validation and no error path. -/
def addRule (st : EngineState) (draft : RuleDraft) (now : ℕ) :
    EngineState × AirdropRule :=
  let newRule : AirdropRule := mapActionToLitActionTemplate {
    id := ruleIdOfTime now
    name := draft.name
    trigger := draft.trigger
    condition := draft.condition
    action := draft.action
    amount := draft.amount
    chain := draft.chain
    enabled := draft.enabled
    lastExecuted := draft.lastExecuted
    executions := 0
    profit := draft.profit
    litActionTemplateId := draft.litActionTemplateId
    litActionParameters := draft.litActionParameters
    litActionExecutionId := draft.litActionExecutionId
    litActionIPFSCID := draft.litActionIPFSCID
    litActionLastExecution := draft.litActionLastExecution }
  ({ st with rules := mapSet newRule.id newRule st.rules }, newRule)

/-- Append an entry to a rule's execution history, as done by the
`if (!has) set([]); get().push(...)` sequence in `executeRule`. -/
def appendHistory (h : List (String × List LitActionExecutionResult))
    (rid : String) (res : LitActionExecutionResult) :
    List (String × List LitActionExecutionResult) :=
  match mapGet rid h with
  | some l => mapSet rid (l ++ [res]) h
  | none => mapSet rid [res] h

/-- Length of a rule's execution history. -/
def historyLen (st : EngineState) (rid : String) : ℕ :=
  ((mapGet rid st.executionHistory).getD []).length

/-- `RulesEngine.executeRule`.  The executor call
`await executeLitAction(...)` is modelled by the `outcome` oracle: `.ok r`
for a promise resolving with `r`, `.error msg` for a rejection with message
`msg` (caught by the surrounding `catch`; the repository's
`executeLitAction` in fact always resolves, see `LitActionResult`).
`prepareLitActionParameters` only shapes the inputs of that call and is
absorbed into the oracle.  `now` is the wall clock used for the ISO
timestamps. -/
def executeRule (st : EngineState) (rid : String) (ctx : RuleExecutionContext)
    (outcome : Except String LitActionResult) (now : ℕ) :
    Except String (EngineState × LitActionExecutionResult) :=
  match mapGet rid st.rules with
  | none => Except.error ("Rule not found or disabled: " ++ rid)
  | some rule =>
    if !rule.enabled then Except.error ("Rule not found or disabled: " ++ rid)
    else if checkRuleConditions rule ctx = false then
      -- `throw new Error(...)` landing in the catch block
      let res : LitActionExecutionResult := {
        success := false
        error := some ("Rule conditions not met: " ++ rule.condition)
        timestamp := now }
      Except.ok ({ st with executionHistory := appendHistory st.executionHistory rid res }, res)
    else
      match outcome with
      | Except.error msg =>
        -- rejected executor promise landing in the catch block
        let res : LitActionExecutionResult := {
          success := false
          error := some msg
          timestamp := now }
        Except.ok ({ st with executionHistory := appendHistory st.executionHistory rid res }, res)
      | Except.ok r =>
        let res : LitActionExecutionResult := {
          success := r.success
          txHash := r.data.bind LitData.txHash
          gasUsed := r.data.bind LitData.gasUsed
          cost := r.data.bind LitData.cost
          executionTime := some r.executionTime
          error := r.error
          timestamp := now }
        let rule' : AirdropRule := { rule with
          executions := rule.executions + 1
          lastExecuted := some now
          litActionLastExecution := some res }
        Except.ok ({ st with
          rules := mapSet rid rule' st.rules
          executionHistory := appendHistory st.executionHistory rid res }, res)

/-- One `checkAndExecuteRules` iteration for one rule: only enabled rules
come out of `getActiveRules()`, `shouldExecuteRule` gates the call, and
the per-rule `try/catch` swallows any rejection leaving the state as-is.
The context built by `createExecutionContext` is the `ctx` argument, the
executor's resolved value the `r` argument. -/
def engineTick (st : EngineState) (rid : String) (ctx : RuleExecutionContext)
    (r : LitActionResult) (now : ℕ) : EngineState :=
  match mapGet rid st.rules with
  | none => st
  | some rule =>
    if rule.enabled then
      if shouldExecuteRule rule ctx now then
        match executeRule st rid ctx (Except.ok r) now with
        | Except.ok (st', _) => st'
        | Except.error _ => st
      else st
    else st

/-- The inputs a single scheduler tick consumes for a given rule. -/
structure TickIn where
  ctx : RuleExecutionContext
  res : LitActionResult
  now : ℕ

/-- Run a sequence of scheduler ticks for rule `rid`. -/
def runTicks (rid : String) : EngineState → List TickIn → EngineState
  | st, [] => st
  | st, i :: l => runTicks rid (engineTick st rid i.ctx i.res i.now) l

end Airdrop

namespace Airdrop

/-! ## `LitAirdropMonitor` (`airdrop-lit-monitor.ts`) -/

/-- `MonitoringConfig`. -/
structure MonitoringConfig where
  enabled : Bool
  intervalMs : ℕ
  maxConcurrentExecutions : ℕ
  retryAttempts : ℕ
  gasPriceThreshold : String
  slippageThreshold : String
  deriving DecidableEq, Repr

/-- The counters of `MonitoringStats` that the verified operations touch
(`totalCost`, `averageExecutionTime` and `successRate` are further derived
bookkeeping no claim refers to; `activeOpportunities` is decremented and
so kept in `ℤ` like any JS number). -/
structure MonitoringStats where
  totalOpportunities : ℤ
  activeOpportunities : ℤ
  executedRules : ℕ
  successfulExecutions : ℕ
  failedExecutions : ℕ
  totalGasUsed : ℕ
  deriving DecidableEq, Repr

/-- The per-execution context stashed under `` `context_${executionId}` ``
(`{ opportunity, rule, context }`; the `context` member is just
`{ airdropOpportunity: opportunity }`). -/
structure ExecCtx where
  opportunity : AirdropOpportunity
  rule : AirdropRule
  deriving DecidableEq, Repr

/-- The mutable state of the `LitAirdropMonitor` singleton. -/
structure MonitorState where
  opportunities : List (String × AirdropOpportunity)
  config : MonitoringConfig
  executionQueue : List String
  activeExecutions : List String
  contexts : List (String × ExecCtx)
  stats : MonitoringStats
  deriving DecidableEq, Repr

/-- JS `Set.add`: append if absent (sets preserve insertion order). -/
def setAdd (x : String) (s : List String) : List String :=
  if x ∈ s then s else s ++ [x]

/-- JS `Set.delete` / property `delete`. -/
def setDelete (x : String) (s : List String) : List String :=
  s.filter (fun y => y ≠ x)

/-- Delete a key from an association-list map. -/
def mapDelete {β : Type} (k : String) (m : List (String × β)) : List (String × β) :=
  m.filter (fun p => p.1 ≠ k)

/-- The constructor's hard-coded configuration (`maxConcurrentExecutions: 5`). -/
def initConfig : MonitoringConfig :=
  { enabled := true
    intervalMs := 30000
    maxConcurrentExecutions := 5
    retryAttempts := 3
    gasPriceThreshold := "50"
    slippageThreshold := "0.5" }

/-- The three opportunities seeded by `initializeMockData`, constructed at
clock `t0` (deadlines 30, 60 and 45 days out). -/
def mockOpportunities (t0 : ℕ) : List AirdropOpportunity :=
  [ { id := "zk_sync_airdrop"
      name := "ZkSync Era Airdrop"
      chain := "zksync"
      project := "ZkSync"
      requirements := ["Bridge funds to ZkSync", "Make 5+ swaps", "Interact with 3+ protocols"]
      estimatedValue := "$500-2000"
      deadline := t0 + 2592000000
      status := OppStatus.active
      difficulty := Difficulty.medium
      gasCost := "$15-30"
      timeRequired := "2-3 hours" },
    { id := "layerzero_airdrop"
      name := "LayerZero Airdrop"
      chain := "arbitrum"
      project := "LayerZero"
      requirements := ["Bridge funds via LayerZero", "Use 3+ chains", "Interact with Stargate"]
      estimatedValue := "$1000-5000"
      deadline := t0 + 5184000000
      status := OppStatus.active
      difficulty := Difficulty.hard
      gasCost := "$50-100"
      timeRequired := "4-6 hours" },
    { id := "starknet_airdrop"
      name := "Starknet Airdrop"
      chain := "starknet"
      project := "Starknet"
      requirements := ["Bridge to Starknet", "Use dApps", "Hold tokens"]
      estimatedValue := "$200-800"
      deadline := t0 + 3888000000
      status := OppStatus.active
      difficulty := Difficulty.easy
      gasCost := "$5-15"
      timeRequired := "1-2 hours" } ]

/-- The monitor state right after the constructor ran at clock `t0`. -/
def initMonitorState (t0 : ℕ) : MonitorState :=
  let opps := mockOpportunities t0
  { opportunities := opps.foldl (fun m o => mapSet o.id o m) []
    config := initConfig
    executionQueue := []
    activeExecutions := []
    contexts := []
    stats := {
      totalOpportunities := opps.length
      activeOpportunities := (opps.filter (fun o => o.status = OppStatus.active)).length
      executedRules := 0
      successfulExecutions := 0
      failedExecutions := 0
      totalGasUsed := 0 } }

/-- `LitAirdropMonitor.opportunityMatchesRule`: the monitor's own copy of
the substring matching, with no trigger check; its `try/catch` is dead
code since every operation is total. -/
def opportunityMatchesRule (opp : AirdropOpportunity) (rule : AirdropRule) : Bool :=
  if listContains (chainPattern opp) rule.condition.data then true
  else if listContains (projectPattern opp) rule.condition.data then true
  else
    match findValueThreshold rule.condition.data with
    | some minValue => valueExceeds opp.estimatedValue.data minValue
    | none => false

/-- The id template `` `exec_${opportunity.id}_${rule.id}_${Date.now()}` ``. -/
def execIdOf (opp : AirdropOpportunity) (rule : AirdropRule) (now : ℕ) : String :=
  "exec_" ++ opp.id ++ "_" ++ rule.id ++ "_" ++ String.mk (decimalDigits now)

/-- `LitAirdropMonitor.addToExecutionQueue`: push the execution id and
stash the `{opportunity, rule, context}` record; nothing is checked
against the existing queue or the in-flight set. -/
def addToExecutionQueue (st : MonitorState) (opp : AirdropOpportunity)
    (rule : AirdropRule) (now : ℕ) : MonitorState :=
  let eid := execIdOf opp rule now
  { st with
    executionQueue := st.executionQueue ++ [eid]
    contexts := mapSet eid ⟨opp, rule⟩ st.contexts }

/-- The inner `for (const rule of activeRules)` loop of
`matchOpportunitiesWithRules` for one opportunity. -/
def innerMatchFold (opp : AirdropOpportunity) (now : ℕ) (s : MonitorState)
    (rs : List AirdropRule) : MonitorState :=
  rs.foldl (fun s' rule =>
    if opportunityMatchesRule opp rule then addToExecutionQueue s' opp rule now
    else s') s

/-- `LitAirdropMonitor.matchOpportunitiesWithRules`: cross-join the active
opportunities with the active rules (from `rulesEngine.getActiveRules()`,
the `rules` argument) and enqueue every matching pair. -/
def matchStep (st : MonitorState) (rules : List AirdropRule) (now : ℕ) : MonitorState :=
  let activeRules := rules.filter (fun r => r.enabled)
  let activeOpps := (st.opportunities.map Prod.snd).filter
    (fun o => o.status = OppStatus.active)
  activeOpps.foldl (fun s opp => innerMatchFold opp now s activeRules) st

/-- `LitAirdropMonitor.updateExistingOpportunities`: flip every active
opportunity whose deadline lies strictly before `now` to expired,
decrementing `stats.activeOpportunities` each time.  Also returns how
many entries were transitioned (the loop body per map entry is
`expireEntry`). -/
def expireEntry (now : ℕ) (p : String × AirdropOpportunity) :
    (String × AirdropOpportunity) × ℕ :=
  if p.2.status = OppStatus.active ∧ p.2.deadline < now then
    ((p.1, { p.2 with status := OppStatus.expired }), 1)
  else (p, 0)

def updateExistingOpportunities (st : MonitorState) (now : ℕ) : MonitorState × ℕ :=
  let results := st.opportunities.map (expireEntry now)
  let transitioned : ℕ := (results.map Prod.snd).sum
  ({ st with
      opportunities := results.map Prod.fst
      stats := { st.stats with
        activeOpportunities := st.stats.activeOpportunities - (transitioned : ℤ) } },
    transitioned)

/-- `LitAirdropMonitor.addOpportunity`. -/
def addOpportunity (st : MonitorState) (opp : AirdropOpportunity) : MonitorState :=
  { st with
    opportunities := mapSet opp.id opp st.opportunities
    stats := { st.stats with
      totalOpportunities := st.stats.totalOpportunities + 1
      activeOpportunities := st.stats.activeOpportunities + 1 } }

/-- The synchronous prefix of `LitAirdropMonitor.processExecutionQueue`,
up to the `await`: return on an empty queue, return at the concurrency
cap, `shift()` the head, return (dropping the id) on a falsy id or a
missing stashed context, otherwise mark the id in-flight. -/
def processExecutionQueueStart (st : MonitorState) : MonitorState :=
  match st.executionQueue with
  | [] => st
  | eid :: rest =>
    if st.activeExecutions.length ≥ st.config.maxConcurrentExecutions then st
    else if eid = "" then { st with executionQueue := rest }
    else
      match mapGet eid st.contexts with
      | none => { st with executionQueue := rest }
      | some _ =>
        { st with
          executionQueue := rest
          activeExecutions := setAdd eid st.activeExecutions }

/-- The remainder of `processExecutionQueue` after the awaited
`rulesEngine.executeRule` settles: apply the result to the stats and the
matched opportunity (`.ok`), or count a failure on a rejection caught by
the `catch` (`.error`); the `finally` releases the in-flight slot and the
stashed context in both cases. -/
def execCompletion (st : MonitorState) (eid : String)
    (outcome : Except String LitActionExecutionResult) : MonitorState :=
  let finish := fun (s : MonitorState) =>
    { s with
      activeExecutions := setDelete eid s.activeExecutions
      contexts := mapDelete eid s.contexts }
  match outcome with
  | Except.error _ =>
    finish { st with stats := { st.stats with
      failedExecutions := st.stats.failedExecutions + 1 } }
  | Except.ok res =>
    match mapGet eid st.contexts with
    | none => finish st
    | some c =>
      let stats₁ := { st.stats with
        executedRules := st.stats.executedRules + 1
        successfulExecutions :=
          st.stats.successfulExecutions + (if res.success then 1 else 0)
        failedExecutions :=
          st.stats.failedExecutions + (if res.success then 0 else 1)
        totalGasUsed := st.stats.totalGasUsed + (res.gasUsed.getD 0) }
      let opp' :=
        if res.success then
          { c.opportunity with
            litActionStatus := some LitStatus.completed
            litActionResult := some res }
        else { c.opportunity with litActionStatus := some LitStatus.failed }
      finish { st with
        opportunities := mapSet c.opportunity.id opp' st.opportunities
        stats := stats₁ }

/-- The state-changing events of the monitor's concurrent loops. -/
inductive MonStep where
  | enqueue (opp : AirdropOpportunity) (rule : AirdropRule) (now : ℕ)
  | matchTick (rules : List AirdropRule) (now : ℕ)
  | expireTick (now : ℕ)
  | addOpp (opp : AirdropOpportunity)
  | drainStart
  | complete (eid : String) (outcome : Except String LitActionExecutionResult)

/-- Apply one event. -/
def monApply (st : MonitorState) : MonStep → MonitorState
  | MonStep.enqueue o r now => addToExecutionQueue st o r now
  | MonStep.matchTick rules now => matchStep st rules now
  | MonStep.expireTick now => (updateExistingOpportunities st now).1
  | MonStep.addOpp o => addOpportunity st o
  | MonStep.drainStart => processExecutionQueueStart st
  | MonStep.complete eid outcome => execCompletion st eid outcome

/-- Run a sequence of events. -/
def monRun (st : MonitorState) : List MonStep → MonitorState
  | [] => st
  | s :: l => monRun (monApply st s) l

/-- A monitor state reachable from some constructor-time state through the
modelled events. -/
def MonReachable (s : MonitorState) : Prop :=
  ∃ t0 steps, monRun (initMonitorState t0) steps = s

end Airdrop

namespace Airdrop

/-! ## Claim theorems -/

theorem expireEntry_fixed (now : ℕ) (p : String × AirdropOpportunity) :
    expireEntry now (expireEntry now p).1 = ((expireEntry now p).1, 0) := by
  obtain ⟨k, o⟩ := p
  by_cases h : o.status = OppStatus.active ∧ o.deadline < now
  · simp [expireEntry, h]
  · simp [expireEntry, h]

/-- C6: the stale-opportunity expiry pass (`updateExistingOpportunities`)
is idempotent: a second run at the same clock changes nothing and
transitions zero opportunities, and an entry that is already `expired`
passes through the first run unchanged (the pass never leaves
`expired`). -/
theorem c6_expiry_idempotent (st : MonitorState) (now : ℕ) :
    (updateExistingOpportunities (updateExistingOpportunities st now).1 now).1
      = (updateExistingOpportunities st now).1 ∧
    (updateExistingOpportunities (updateExistingOpportunities st now).1 now).2 = 0 ∧
    (∀ p ∈ st.opportunities, p.2.status = OppStatus.expired →
      p ∈ (updateExistingOpportunities st now).1.opportunities) := by
  have key : ∀ q ∈ (updateExistingOpportunities st now).1.opportunities,
      expireEntry now q = (q, 0) := by
    intro q hq
    simp only [updateExistingOpportunities, List.map_map] at hq
    obtain ⟨p, _, rfl⟩ := List.mem_map.mp hq
    exact expireEntry_fixed now p
  have hmap : (updateExistingOpportunities st now).1.opportunities.map (expireEntry now)
      = (updateExistingOpportunities st now).1.opportunities.map (fun q => (q, 0)) :=
    List.map_congr_left key
  refine ⟨?_, ?_, ?_⟩
  · conv_lhs => rw [updateExistingOpportunities]
    simp only [hmap, List.map_map]
    simp [Function.comp_def]
  · conv_lhs => rw [updateExistingOpportunities]
    simp only [hmap, List.map_map]
    simp [Function.comp_def]
  · intro p hp hstat
    simp only [updateExistingOpportunities, List.map_map]
    have hfix : (Prod.fst ∘ expireEntry now) p = p := by
      simp [expireEntry, hstat]
    exact hfix ▸ List.mem_map_of_mem (Prod.fst ∘ expireEntry now) hp

/-- Closed instance of `c6_expiry_idempotent` discharging its inner
hypothesis at a concrete state: one overdue active opportunity, expired
by the first pass, untouched and uncounted by the second. -/
theorem c6_expiry_idempotent_witness :
    ((mockOpportunities 0).headD
        { id := "", name := "", chain := "", project := "", requirements := [],
          estimatedValue := "", deadline := 0, status := OppStatus.expired,
          difficulty := Difficulty.easy, gasCost := "", timeRequired := "" }).status
      ≠ OppStatus.expired ∧
    (updateExistingOpportunities
        (updateExistingOpportunities (initMonitorState 0) 2592000001).1 2592000001).2 = 0 := by
  constructor
  · decide
  · exact (c6_expiry_idempotent (initMonitorState 0) 2592000001).2.1

end Airdrop

namespace Airdrop

/-- Modelled from the spec's words, for refinement comparison only: the
number "obtained after removing every non-digit character" from the value
string. -/
def specAllDigitsValue (l : List Char) : ℕ :=
  natOfDigits (l.filter Char.isDigit)

/-- C8 counterexample: on `"$500-2000"` with threshold 1000 the claimed
semantics (strip all non-digits, giving 5002000, so 1000 < 5002000 would
match) disagrees with the code, which strips only `$` and `,`, parses the
leading number 500, and does not match. -/
theorem c8_counterexample :
    specAllDigitsValue "$500-2000".data = 5002000 ∧
    (1000 : ℕ) < specAllDigitsValue "$500-2000".data ∧
    parsedEstimatedValue "$500-2000".data = some ⟨500, 0⟩ ∧
    valueExceeds "$500-2000".data 1000 = false := by
  decide

theorem isDigit_ne_special (c : Char) (h : c.isDigit = true) :
    c ≠ '$' ∧ c ≠ ',' ∧ c ≠ ' ' ∧ c ≠ '-' ∧ c ≠ '+' ∧ c ≠ '.' := by
  refine ⟨?_, ?_, ?_, ?_, ?_, ?_⟩ <;> rintro rfl <;> exact absurd h (by decide)

theorem takeWhile_append_all {p : Char → Bool} (a b : List Char) (x : Char)
    (ha : ∀ c ∈ a, p c = true) (hx : p x = false) :
    (a ++ x :: b).takeWhile p = a := by
  induction a with
  | nil => simp [List.takeWhile_cons, hx]
  | cons c t ih =>
    have hc := ha c (by simp)
    simp [List.takeWhile_cons, hc, ih (fun d hd => ha d (by simp [hd]))]

/-- C8 as amended: the engine removes only `$` and `,` before `parseFloat`,
so a currency-range string `$A-B` (digit runs `A`, `B`) is compared as the
leading number `A`, not as the digit-concatenation: the parsed value of
`'$' :: A ++ '-' :: B` is `natOfDigits A`, and the threshold test is
`n < natOfDigits A`. -/
theorem c8_amended (a b : List Char) (ha : a ≠ [])
    (hda : ∀ c ∈ a, c.isDigit = true) (hdb : ∀ c ∈ b, c.isDigit = true) :
    parsedEstimatedValue ('$' :: (a ++ '-' :: b)) = some ⟨(natOfDigits a : ℤ), 0⟩ ∧
    ∀ n : ℕ, valueExceeds ('$' :: (a ++ '-' :: b)) n = decide (n < natOfDigits a) := by
  have hstrip : stripDollarComma ('$' :: (a ++ '-' :: b)) = a ++ '-' :: b := by
    have hrest : (a ++ '-' :: b).filter (fun c => !(c = '$' || c = ',')) = a ++ '-' :: b := by
      refine List.filter_eq_self.mpr ?_
      intro c hc
      rcases List.mem_append.mp hc with hca | hcb
      · have := isDigit_ne_special c (hda c hca)
        simp [this.1, this.2.1]
      · rcases List.mem_cons.mp hcb with rfl | hcb'
        · decide
        · have := isDigit_ne_special c (hdb c hcb')
          simp [this.1, this.2.1]
    simpa [stripDollarComma] using hrest
  obtain ⟨c, t, rfl⟩ : ∃ c t, a = c :: t := by
    cases a with
    | nil => exact absurd rfl ha
    | cons c t => exact ⟨c, t, rfl⟩
  have hc := isDigit_ne_special c (hda c (by simp))
  have hparse : parseFloatDec (c :: (t ++ '-' :: b)) = some ⟨(natOfDigits (c :: t) : ℤ), 0⟩ := by
    have e1 : List.dropWhile (fun x => decide (x = ' ')) (c :: (t ++ '-' :: b))
        = c :: (t ++ '-' :: b) := by
      rw [List.dropWhile_cons]
      simp [hc.2.2.1]
    have e3 : List.takeWhile Char.isDigit (c :: (t ++ '-' :: b)) = c :: t :=
      takeWhile_append_all (c :: t) b '-' hda (by decide)
    have e4 : List.drop (c :: t).length (c :: (t ++ '-' :: b)) = '-' :: b :=
      List.drop_left (c :: t) ('-' :: b)
    have hif : (c = '-' ∨ c = '+') = False := by
      simp [hc.2.2.2.1, hc.2.2.2.2.1]
    have hnegd : decide (c = '-') = false := by simp [hc.2.2.2.1]
    have hdot : ('-' = '.') = False := by decide
    have e5 : natOfDigits [] = 0 := rfl
    simp only [parseFloatDec, e1, List.head?_cons, Option.getD_some, List.headD_cons,
      hif, if_false, e3, e4, hnegd, hdot, List.isEmpty_cons, List.isEmpty_nil,
      Bool.false_and, Bool.false_eq_true, List.length_nil, pow_zero, mul_one, e5,
      add_zero, Bool.and_true]
  have hcons : ((c :: t) ++ '-' :: b : List Char) = c :: (t ++ '-' :: b) :=
    List.cons_append c t ('-' :: b)
  refine ⟨by rw [parsedEstimatedValue, hstrip, hcons]; exact hparse, ?_⟩
  intro n
  rw [valueExceeds, parsedEstimatedValue, hstrip, hcons, hparse]
  simp only [decimalLtNat, pow_zero, mul_one]
  exact decide_eq_decide.mpr (by exact_mod_cast Iff.rfl)

/-- Closed instance of `c8_amended` at `a = "500"`, `b = "2000"`. -/
theorem c8_amended_witness :
    ("500".data ≠ ([] : List Char)) ∧
    parsedEstimatedValue ('$' :: ("500".data ++ '-' :: "2000".data)) = some ⟨500, 0⟩ := by
  refine ⟨by decide, ?_⟩
  have h := (c8_amended "500".data "2000".data (by decide) (by decide) (by decide)).1
  rw [h]
  decide

end Airdrop


namespace Airdrop

/-- C1: for a `new_airdrop` rule evaluated against an opportunity fact
context, condition evaluation is true exactly when one of the three
independent sub-patterns matches: the condition contains the chain
equality substring, or the lowercased project equality substring, or an
`estimatedValue > n` clause whose threshold `n` is strictly below the
parsed opportunity value.  An `AND`-joined condition therefore matches as
soon as any single clause does.  The monitor's `opportunityMatchesRule`
agrees with the engine's `checkRuleConditions` on such contexts. -/
theorem c1_condition_or_semantics (rule : AirdropRule) (opp : AirdropOpportunity)
    (md : Option MarketData) (td : Option TimeData)
    (h : rule.trigger = Trigger.new_airdrop) :
    (checkRuleConditions rule ⟨some opp, md, td⟩ = true ↔
      (listContains (chainPattern opp) rule.condition.data = true ∨
       listContains (projectPattern opp) rule.condition.data = true ∨
       (∃ tv v, findValueThreshold rule.condition.data = some tv ∧
          parsedEstimatedValue opp.estimatedValue.data = some v ∧
          (tv : ℚ) < v.toQ))) ∧
    opportunityMatchesRule opp rule = checkRuleConditions rule ⟨some opp, md, td⟩ := by
  have hprice : checkPriceBlock rule ⟨some opp, md, td⟩ = none := by
    rcases md with _ | m <;> simp [checkPriceBlock, h]
  have htime : checkTimeBlock rule ⟨some opp, md, td⟩ = none := by
    rcases td with _ | tdat <;> simp [checkTimeBlock, h]
  have hkey : checkRuleConditions rule ⟨some opp, md, td⟩ = opportunityMatchesRule opp rule := by
    simp only [checkRuleConditions, checkOppBlock, opportunityMatchesRule, h, hprice, htime,
      eq_self_iff_true, if_true]
    cases h1 : listContains (chainPattern opp) rule.condition.data
    · cases h2 : listContains (projectPattern opp) rule.condition.data
      · cases h3 : findValueThreshold rule.condition.data <;> simp
      · simp
    · simp
  refine ⟨?_, hkey.symm⟩
  rw [hkey, opportunityMatchesRule]
  cases h1 : listContains (chainPattern opp) rule.condition.data
  · cases h2 : listContains (projectPattern opp) rule.condition.data
    · cases h3 : findValueThreshold rule.condition.data with
      | none => simp
      | some m =>
        cases h4 : parsedEstimatedValue opp.estimatedValue.data with
        | none => simp [valueExceeds, h4]
        | some v =>
          simp only [Bool.false_eq_true, if_false, valueExceeds, h4, false_or,
            Option.some.injEq]
          constructor
          · intro hlt
            exact ⟨m, v, rfl, rfl, (decimalLtNat_iff m v).mp hlt⟩
          · rintro ⟨tv, v₁, rfl, rfl, hlt⟩
            exact (decimalLtNat_iff m v).mpr hlt
    · simp
  · simp

end Airdrop

namespace Airdrop

/-- The default ZkSync hunter rule shape, used to instantiate C1. -/
def c1Rule : AirdropRule :=
  { id := "zk_sync_airdrop", name := "ZkSync Airdrop Hunter",
    trigger := Trigger.new_airdrop,
    condition := "chain = 'zksync' AND estimatedValue > 500",
    action := "bridge_and_swap", amount := "0.05", chain := "zksync",
    enabled := true, executions := 0 }

/-- The ZkSync mock opportunity shape, used to instantiate C1. -/
def c1Opp : AirdropOpportunity :=
  { id := "zk_sync_airdrop", name := "ZkSync Era Airdrop", chain := "zksync",
    project := "ZkSync",
    requirements := ["Bridge funds to ZkSync", "Make 5+ swaps",
      "Interact with 3+ protocols"],
    estimatedValue := "$500-2000", deadline := 2592000000,
    status := OppStatus.active, difficulty := Difficulty.medium,
    gasCost := "$15-30", timeRequired := "2-3 hours" }

/-- Closed instance of `c1_condition_or_semantics`: the default ZkSync rule
against the ZkSync opportunity matches through the chain sub-pattern. -/
theorem c1_condition_or_semantics_witness :
    c1Rule.trigger = Trigger.new_airdrop ∧
    checkRuleConditions c1Rule ⟨some c1Opp, none, none⟩ = true := by
  refine ⟨rfl, ?_⟩
  exact ((c1_condition_or_semantics c1Rule c1Opp none none rfl).1).mpr
    (Or.inl (by decide))

/-- A rule that executed moments ago and still substring-matches the
ZkSync opportunity; used against C5. -/
def c5Rule : AirdropRule :=
  { id := "rulex", name := "Recently executed", trigger := Trigger.new_airdrop,
    condition := "chain = 'zksync'", action := "bridge", amount := "0.05",
    chain := "zksync", enabled := true, lastExecuted := some 1000000,
    executions := 1 }

/-- C5 counterexample: the monitor's matching pass applies no cool-down.
A rule last executed at clock 1000000 is matched again at clock 1030000
(30 s later, well inside the one-hour window): the tick enqueues a fresh
match for it. -/
theorem c5_counterexample :
    c5Rule.lastExecuted = some 1000000 ∧
    ((1030000 : ℤ) - 1000000 < 3600000) ∧
    (matchStep (initMonitorState 0) [c5Rule] 1030000).executionQueue
      = ["exec_zk_sync_airdrop_rulex_1030000"] := by
  refine ⟨rfl, by decide, ?_⟩
  decide

/-- C5 as amended: only the rules engine's own scheduling path enforces
the one-hour cool-down — `shouldExecuteRule` returns false inside the
window regardless of the condition, and the scheduler tick then leaves
the engine state (counters, history, `lastExecuted`) completely
unchanged; the monitor's matching path (see the counterexample) applies
no cool-down. -/
theorem c5_cooldown_amended (rule : AirdropRule) (ctx : RuleExecutionContext)
    (now lastT : ℕ) (h : rule.lastExecuted = some lastT)
    (hw : (now : ℤ) - (lastT : ℤ) < 3600000) :
    shouldExecuteRule rule ctx now = false ∧
    ∀ st rid r, mapGet rid st.rules = some rule →
      engineTick st rid ctx r now = st := by
  have h1 : shouldExecuteRule rule ctx now = false := by
    simp [shouldExecuteRule, h, hw]
  refine ⟨h1, ?_⟩
  intro st rid r hr
  simp [engineTick, hr, h1]

/-- Closed instance of `c5_cooldown_amended` 30 s after an execution. -/
theorem c5_cooldown_amended_witness :
    shouldExecuteRule c5Rule ⟨none, none, none⟩ 1030000 = false ∧
    engineTick ⟨[("rulex", c5Rule)], []⟩ "rulex" ⟨none, none, none⟩
      { success := true, executionTime := 1 } 1030000
      = ⟨[("rulex", c5Rule)], []⟩ := by
  have h := c5_cooldown_amended c5Rule ⟨none, none, none⟩ 1030000 1000000 rfl (by decide)
  exact ⟨h.1, h.2 ⟨[("rulex", c5Rule)], []⟩ "rulex" _ (by decide)⟩

end Airdrop

namespace Airdrop

/-- An enabled rule matching the ZkSync opportunity; used against C2. -/
def c2Rule : AirdropRule :=
  { id := "ruley", name := "Duplicated rule", trigger := Trigger.new_airdrop,
    condition := "chain = 'zksync'", action := "bridge", amount := "0.05",
    chain := "zksync", enabled := true, executions := 0 }

/-- C2 counterexample: two scheduler ticks at clocks 1000 and 2000 both
find the same (rule, opportunity) pair matching while nothing has
executed (the in-flight set stays empty), and the queue ends up holding
two matches for that pair — no dedup takes place. -/
theorem c2_counterexample :
    (matchStep (matchStep (initMonitorState 0) [c2Rule] 1000) [c2Rule] 2000).executionQueue
      = ["exec_zk_sync_airdrop_ruley_1000", "exec_zk_sync_airdrop_ruley_2000"] ∧
    (matchStep (matchStep (initMonitorState 0) [c2Rule] 1000) [c2Rule] 2000).activeExecutions
      = [] := by
  decide

/-- The ids `matchOpportunitiesWithRules` pushes in one tick: one per
(active opportunity, active rule) pair whose condition matches. -/
def matchIdsFor (st : MonitorState) (rules : List AirdropRule) (now : ℕ) : List String :=
  (((st.opportunities.map Prod.snd).filter (fun o => o.status = OppStatus.active)).map
    (fun o => ((rules.filter (fun r => r.enabled)).filter
        (fun r => opportunityMatchesRule o r)).map (fun r => execIdOf o r now))).flatten

theorem innerMatchFold_spec (opp : AirdropOpportunity) (now : ℕ)
    (rs : List AirdropRule) : ∀ s : MonitorState,
    (innerMatchFold opp now s rs).executionQueue
      = s.executionQueue ++ (rs.filter (fun r => opportunityMatchesRule opp r)).map
          (fun r => execIdOf opp r now) ∧
    (innerMatchFold opp now s rs).activeExecutions = s.activeExecutions ∧
    (innerMatchFold opp now s rs).opportunities = s.opportunities ∧
    (innerMatchFold opp now s rs).config = s.config := by
  induction rs with
  | nil => intro s; simp [innerMatchFold]
  | cons r rs ih =>
    intro s
    by_cases hm : opportunityMatchesRule opp r = true
    · have hstep : innerMatchFold opp now s (r :: rs)
          = innerMatchFold opp now (addToExecutionQueue s opp r now) rs := by
        simp [innerMatchFold, hm]
      obtain ⟨q, a, o, c⟩ := ih (addToExecutionQueue s opp r now)
      rw [hstep]
      refine ⟨?_, ?_, ?_, ?_⟩
      · rw [q]
        simp [addToExecutionQueue, List.filter_cons, hm]
      · rw [a]; simp [addToExecutionQueue]
      · rw [o]; simp [addToExecutionQueue]
      · rw [c]; simp [addToExecutionQueue]
    · have hm' : opportunityMatchesRule opp r = false := by
        cases hx : opportunityMatchesRule opp r
        · rfl
        · exact absurd hx hm
      have hstep : innerMatchFold opp now s (r :: rs) = innerMatchFold opp now s rs := by
        simp [innerMatchFold, hm']
      obtain ⟨q, a, o, c⟩ := ih s
      rw [hstep]
      exact ⟨by rw [q]; simp [List.filter_cons, hm'], a, o, c⟩

theorem outerMatchFold_spec (now : ℕ) (ars : List AirdropRule)
    (os : List AirdropOpportunity) : ∀ s : MonitorState,
    ((os.foldl (fun s o => innerMatchFold o now s ars) s).executionQueue
      = s.executionQueue ++ (os.map (fun o => ((ars.filter
          (fun r => opportunityMatchesRule o r)).map (fun r => execIdOf o r now)))).flatten) ∧
    ((os.foldl (fun s o => innerMatchFold o now s ars) s).activeExecutions
      = s.activeExecutions) ∧
    ((os.foldl (fun s o => innerMatchFold o now s ars) s).opportunities
      = s.opportunities) ∧
    ((os.foldl (fun s o => innerMatchFold o now s ars) s).config = s.config) := by
  induction os with
  | nil => intro s; simp
  | cons o os ih =>
    intro s
    obtain ⟨q₁, a₁, o₁, c₁⟩ := innerMatchFold_spec o now ars s
    obtain ⟨q₂, a₂, o₂, c₂⟩ := ih (innerMatchFold o now s ars)
    simp only [List.foldl_cons, List.map_cons, List.flatten_cons]
    refine ⟨?_, ?_, ?_, ?_⟩
    · rw [q₂, q₁, List.append_assoc]
    · rw [a₂, a₁]
    · rw [o₂, o₁]
    · rw [c₂, c₁]

/-- One tick appends exactly the matching pairs' ids to the queue and
touches neither the in-flight set, nor the opportunities, nor the
configuration. -/
theorem matchStep_spec (st : MonitorState) (rules : List AirdropRule) (now : ℕ) :
    (matchStep st rules now).executionQueue
      = st.executionQueue ++ matchIdsFor st rules now ∧
    (matchStep st rules now).activeExecutions = st.activeExecutions ∧
    (matchStep st rules now).opportunities = st.opportunities ∧
    (matchStep st rules now).config = st.config := by
  exact outerMatchFold_spec now (rules.filter (fun r => r.enabled))
    ((st.opportunities.map Prod.snd).filter (fun o => o.status = OppStatus.active)) st

theorem mem_matchIdsFor (st : MonitorState) (rules : List AirdropRule) (now : ℕ)
    (opp : AirdropOpportunity) (rule : AirdropRule)
    (ho : opp ∈ st.opportunities.map Prod.snd) (hos : opp.status = OppStatus.active)
    (hr : rule ∈ rules) (hre : rule.enabled = true)
    (hm : opportunityMatchesRule opp rule = true) :
    execIdOf opp rule now ∈ matchIdsFor st rules now := by
  apply List.mem_flatten.mpr
  refine ⟨((rules.filter (fun r => r.enabled)).filter
      (fun r => opportunityMatchesRule opp r)).map (fun r => execIdOf opp r now), ?_, ?_⟩
  · exact List.mem_map_of_mem _ (List.mem_filter.mpr ⟨ho, by simp [hos]⟩)
  · exact List.mem_map_of_mem _ (List.mem_filter.mpr
      ⟨List.mem_filter.mpr ⟨hr, by simp [hre]⟩, hm⟩)

/-- C2 as amended: the monitor performs no (ruleId, opportunityId) dedup
at all.  Every tick that finds a pair matching appends a fresh match for
it, so two ticks produce two queued matches for the same pair (one per
tick timestamp), growing the queue by at least two. -/
theorem c2_no_dedup_amended (st : MonitorState) (rules : List AirdropRule)
    (t1 t2 : ℕ) (opp : AirdropOpportunity) (rule : AirdropRule)
    (ho : opp ∈ st.opportunities.map Prod.snd) (hos : opp.status = OppStatus.active)
    (hr : rule ∈ rules) (hre : rule.enabled = true)
    (hm : opportunityMatchesRule opp rule = true) :
    execIdOf opp rule t1 ∈ (matchStep (matchStep st rules t1) rules t2).executionQueue ∧
    execIdOf opp rule t2 ∈ (matchStep (matchStep st rules t1) rules t2).executionQueue ∧
    st.executionQueue.length + 2
      ≤ (matchStep (matchStep st rules t1) rules t2).executionQueue.length := by
  obtain ⟨q1, -, hop1, -⟩ := matchStep_spec st rules t1
  obtain ⟨q2, -, -, -⟩ := matchStep_spec (matchStep st rules t1) rules t2
  have hids : matchIdsFor (matchStep st rules t1) rules t2 = matchIdsFor st rules t2 := by
    unfold matchIdsFor
    rw [hop1]
  rw [q2, hids, q1]
  have h1 : execIdOf opp rule t1 ∈ matchIdsFor st rules t1 :=
    mem_matchIdsFor st rules t1 opp rule ho hos hr hre hm
  have h2 : execIdOf opp rule t2 ∈ matchIdsFor st rules t2 :=
    mem_matchIdsFor st rules t2 opp rule ho hos hr hre hm
  refine ⟨by simp [h1], by simp [h2], ?_⟩
  have l1 : 1 ≤ (matchIdsFor st rules t1).length := List.length_pos.mpr (by
    intro hnil; rw [hnil] at h1; exact absurd h1 (List.not_mem_nil _))
  have l2 : 1 ≤ (matchIdsFor st rules t2).length := List.length_pos.mpr (by
    intro hnil; rw [hnil] at h2; exact absurd h2 (List.not_mem_nil _))
  simp only [List.length_append]
  omega

/-- Closed instance of `c2_no_dedup_amended` at the seeded monitor state:
ticks at clocks 1000 and 2000 enqueue two matches for the ZkSync pair. -/
theorem c2_no_dedup_amended_witness :
    c1Opp ∈ (initMonitorState 0).opportunities.map Prod.snd ∧
    execIdOf c1Opp c2Rule 1000
      ∈ (matchStep (matchStep (initMonitorState 0) [c2Rule] 1000) [c2Rule] 2000).executionQueue := by
  refine ⟨by decide, ?_⟩
  exact (c2_no_dedup_amended (initMonitorState 0) [c2Rule] 1000 2000 c1Opp c2Rule
    (by decide) (by decide) (by decide) (by decide) (by decide)).1

end Airdrop

namespace Airdrop

/-- A rule draft whose action kind is none of the five known kinds; used
against C7. -/
def c7Draft : RuleDraft :=
  { name := "Fly", trigger := Trigger.new_airdrop, condition := "c",
    action := "teleport", amount := "1", chain := "moon", enabled := true }

/-- C7 counterexample: adding a rule whose action kind is unknown raises
nothing — `addRule` has no error path at all — and the rule lands in the
store with no Lit Action template assigned (the `default:` branch of the
mapping only logs a warning).  The rule is silently accepted, contradicting
the claimed ValidationError. -/
theorem c7_counterexample :
    mapGet (addRule ⟨[], []⟩ c7Draft 42).2.id (addRule ⟨[], []⟩ c7Draft 42).1.rules
      = some (addRule ⟨[], []⟩ c7Draft 42).2 ∧
    (addRule ⟨[], []⟩ c7Draft 42).2.action = "teleport" ∧
    (addRule ⟨[], []⟩ c7Draft 42).2.litActionTemplateId = none := by
  decide

/-- C7 as amended: `addRule` performs no validation and never fails: every
draft is accepted into the store with a fresh id and zero counter, and a
draft whose action kind is not among the five known kinds keeps its
template fields exactly as drafted (no template is derived; the unknown
kind only triggers a console warning).  Missing required fields cannot be
expressed through the typed interface and are not checked at runtime
either. -/
theorem c7_no_validation_amended (st : EngineState) (d : RuleDraft) (t : ℕ)
    (hunk : d.action ∉ (["bridge", "swap", "stake", "bridge_and_swap",
      "interact_contract"] : List String)) :
    mapGet (addRule st d t).2.id (addRule st d t).1.rules = some (addRule st d t).2 ∧
    (addRule st d t).2.litActionTemplateId = d.litActionTemplateId ∧
    (addRule st d t).2.litActionParameters = d.litActionParameters ∧
    (addRule st d t).2.action = d.action ∧
    (addRule st d t).2.executions = 0 := by
  simp only [List.mem_cons, List.not_mem_nil, or_false, not_or] at hunk
  obtain ⟨h1, h2, h3, h4, h5⟩ := hunk
  refine ⟨?_, ?_⟩
  · simp only [addRule]
    exact mapGet_mapSet_self _ _ _
  · simp [addRule, mapActionToLitActionTemplate, h1, h2, h3, h4, h5]

/-- Closed instance of `c7_no_validation_amended` at the `"teleport"`
draft. -/
theorem c7_no_validation_amended_witness :
    c7Draft.action ∉ (["bridge", "swap", "stake", "bridge_and_swap",
      "interact_contract"] : List String) ∧
    (addRule ⟨[], []⟩ c7Draft 42).2.litActionTemplateId = c7Draft.litActionTemplateId := by
  refine ⟨by decide, ?_⟩
  exact (c7_no_validation_amended ⟨[], []⟩ c7Draft 42 (by decide)).2.1

end Airdrop

namespace Airdrop

theorem mapAction_preserves_id_executions (r : AirdropRule) :
    (mapActionToLitActionTemplate r).id = r.id ∧
    (mapActionToLitActionTemplate r).executions = r.executions := by
  unfold mapActionToLitActionTemplate
  repeat first
  | exact ⟨rfl, rfl⟩
  | split

/-- The id template is injective in the clock value. -/
theorem ruleIdOfTime_inj (t1 t2 : ℕ) (h : ruleIdOfTime t1 = ruleIdOfTime t2) :
    t1 = t2 := by
  have h2 := congrArg String.data h
  simp only [ruleIdOfTime, String.data_append] at h2
  exact decimalDigits_injective (List.append_cancel_left h2)

/-- Two same-shape drafts, used against C9. -/
def c9DraftA : RuleDraft :=
  { name := "A", trigger := Trigger.new_airdrop, condition := "x",
    action := "bridge", amount := "1", chain := "zksync", enabled := true }

def c9DraftB : RuleDraft :=
  { name := "B", trigger := Trigger.new_airdrop, condition := "y",
    action := "swap", amount := "2", chain := "base", enabled := true }

/-- C9 counterexample: two `addRule` calls at the same clock value 1000
assign the *same* id `rule_1000` to both rules, and the second `Map.set`
overwrites the first — the store ends up holding a single rule.  This
contradicts the claim that two adds at the same clock timestamp get
distinct ids, each fresh relative to the store. -/
theorem c9_counterexample :
    (addRule ⟨[], []⟩ c9DraftA 1000).2.id
      = (addRule (addRule ⟨[], []⟩ c9DraftA 1000).1 c9DraftB 1000).2.id ∧
    (addRule ⟨[], []⟩ c9DraftA 1000).2.id = "rule_1000" ∧
    (addRule (addRule ⟨[], []⟩ c9DraftA 1000).1 c9DraftB 1000).1.rules.length = 1 := by
  decide

/-- C9 as amended: the assigned id is `rule_${Date.now()}`, a pure
function of the add-time clock, and the execution counter starts at zero.
Adds at distinct clock values therefore get distinct ids, but two adds at
the same clock value collide on the same id (and the second overwrites
the first in the store, as the counterexample shows). -/
theorem c9_id_from_clock_amended (st1 st2 : EngineState) (d1 d2 : RuleDraft)
    (t1 t2 : ℕ) :
    (addRule st1 d1 t1).2.id = ruleIdOfTime t1 ∧
    (addRule st1 d1 t1).2.executions = 0 ∧
    (t1 ≠ t2 → (addRule st1 d1 t1).2.id ≠ (addRule st2 d2 t2).2.id) ∧
    (t1 = t2 → (addRule st1 d1 t1).2.id = (addRule st2 d2 t2).2.id) := by
  have hid : ∀ (st : EngineState) (d : RuleDraft) (t : ℕ),
      (addRule st d t).2.id = ruleIdOfTime t := by
    intro st d t
    simp only [addRule]
    exact (mapAction_preserves_id_executions _).1
  have hex : (addRule st1 d1 t1).2.executions = 0 := by
    simp only [addRule]
    exact (mapAction_preserves_id_executions _).2
  refine ⟨hid st1 d1 t1, hex, ?_, ?_⟩
  · intro hne heq
    rw [hid st1 d1 t1, hid st2 d2 t2] at heq
    exact hne (ruleIdOfTime_inj t1 t2 heq)
  · intro heq
    rw [hid st1 d1 t1, hid st2 d2 t2, heq]

/-- Closed instance of `c9_id_from_clock_amended` at clocks 1 and 2. -/
theorem c9_id_from_clock_amended_witness :
    (1 : ℕ) ≠ 2 ∧
    (addRule ⟨[], []⟩ c9DraftA 1).2.id ≠ (addRule ⟨[], []⟩ c9DraftB 2).2.id := by
  refine ⟨by decide, ?_⟩
  exact (c9_id_from_clock_amended ⟨[], []⟩ ⟨[], []⟩ c9DraftA c9DraftB 1 2).2.2.1 (by decide)

end Airdrop

namespace Airdrop

theorem historyLen_appendHistory (h : List (String × List LitActionExecutionResult))
    (rid : String) (res : LitActionExecutionResult) :
    ((mapGet rid (appendHistory h rid res)).getD []).length
      = ((mapGet rid h).getD []).length + 1 := by
  unfold appendHistory
  cases hg : mapGet rid h with
  | some l => simp [mapGet_mapSet_self, hg]
  | none => simp [mapGet_mapSet_self, hg]

/-- The execution result `executeRule` builds from a resolved executor
response. -/
def resultOfResponse (r : LitActionResult) (now : ℕ) : LitActionExecutionResult :=
  { success := r.success
    txHash := r.data.bind LitData.txHash
    gasUsed := r.data.bind LitData.gasUsed
    cost := r.data.bind LitData.cost
    executionTime := some r.executionTime
    error := r.error
    timestamp := now }

/-- The rule record after a resolved execution: counter bumped,
`lastExecuted` stamped, last execution stored. -/
def postExecRule (rule : AirdropRule) (r : LitActionResult) (now : ℕ) : AirdropRule :=
  { rule with
    executions := rule.executions + 1
    lastExecuted := some now
    litActionLastExecution := some (resultOfResponse r now) }

/-- C10: `executeRule` rejects exactly when the rule id is unknown or the
rule is disabled.  For a known enabled rule it always resolves with an
execution result: a failed condition check comes back as a caught failure
result with the "conditions not met" message, a rejected executor promise
comes back as a caught failure result carrying the rejection message, a
resolved executor response is passed through (success flag and error as
returned), and one entry is appended to the rule's execution history on
every resolving path. -/
theorem c10_executeRule_totality (st : EngineState) (rid : String)
    (ctx : RuleExecutionContext) (outcome : Except String LitActionResult) (now : ℕ) :
    ((∃ e, executeRule st rid ctx outcome now = Except.error e) ↔
      (mapGet rid st.rules = none ∨
       ∃ r, mapGet rid st.rules = some r ∧ r.enabled = false)) ∧
    (∀ rule, mapGet rid st.rules = some rule → rule.enabled = true →
      ∃ st' res, executeRule st rid ctx outcome now = Except.ok (st', res) ∧
        historyLen st' rid = historyLen st rid + 1 ∧
        (checkRuleConditions rule ctx = false →
          res.success = false ∧
          res.error = some ("Rule conditions not met: " ++ rule.condition)) ∧
        (∀ msg, outcome = Except.error msg → checkRuleConditions rule ctx = true →
          res.success = false ∧ res.error = some msg) ∧
        (∀ r', outcome = Except.ok r' → checkRuleConditions rule ctx = true →
          res.success = r'.success ∧ res.error = r'.error)) := by
  cases hg : mapGet rid st.rules with
  | none =>
    constructor
    · constructor
      · intro _
        exact Or.inl rfl
      · intro _
        exact ⟨"Rule not found or disabled: " ++ rid, by simp [executeRule, hg]⟩
    · intro rule hr
      exact absurd hr (by simp)
  | some rule =>
    cases hen : rule.enabled with
    | false =>
      constructor
      · constructor
        · intro _
          exact Or.inr ⟨rule, rfl, hen⟩
        · intro _
          exact ⟨"Rule not found or disabled: " ++ rid, by simp [executeRule, hg, hen]⟩
      · intro rule' hr' hen'
        obtain rfl : rule = rule' := by simpa using hr'
        rw [hen] at hen'
        exact absurd hen' (by decide)
    | true =>
      have hok : ∃ st' res, executeRule st rid ctx outcome now = Except.ok (st', res) ∧
          st'.executionHistory = appendHistory st.executionHistory rid res ∧
          (checkRuleConditions rule ctx = false →
            res.success = false ∧
            res.error = some ("Rule conditions not met: " ++ rule.condition)) ∧
          (∀ msg, outcome = Except.error msg → checkRuleConditions rule ctx = true →
            res.success = false ∧ res.error = some msg) ∧
          (∀ r', outcome = Except.ok r' → checkRuleConditions rule ctx = true →
            res.success = r'.success ∧ res.error = r'.error) := by
        cases hc : checkRuleConditions rule ctx with
        | false =>
          have hrun : executeRule st rid ctx outcome now = Except.ok
              (⟨st.rules, appendHistory st.executionHistory rid
                { success := false,
                  error := some ("Rule conditions not met: " ++ rule.condition),
                  timestamp := now }⟩,
               { success := false,
                 error := some ("Rule conditions not met: " ++ rule.condition),
                 timestamp := now }) := by
            simp [executeRule, hg, hen, hc]
          refine ⟨_, _, hrun, rfl, ?_, ?_, ?_⟩
          · intro _
            exact ⟨rfl, rfl⟩
          · intro msg _ hcontra
            exact absurd hcontra (by decide)
          · intro r' _ hcontra
            exact absurd hcontra (by decide)
        | true =>
          cases outcome with
          | error msg =>
            have hrun : executeRule st rid ctx (Except.error msg) now = Except.ok
                (⟨st.rules, appendHistory st.executionHistory rid
                  { success := false, error := some msg, timestamp := now }⟩,
                 { success := false, error := some msg, timestamp := now }) := by
              simp [executeRule, hg, hen, hc]
            refine ⟨_, _, hrun, rfl, ?_, ?_, ?_⟩
            · intro hcontra
              exact absurd hcontra (by decide)
            · intro msg' hmsg _
              obtain rfl : msg = msg' := by simpa using hmsg
              exact ⟨rfl, rfl⟩
            · intro r' hr' _
              exact absurd hr' (by simp)
          | ok r' =>
            have hrun : executeRule st rid ctx (Except.ok r') now = Except.ok
                (⟨mapSet rid (postExecRule rule r' now) st.rules,
                  appendHistory st.executionHistory rid (resultOfResponse r' now)⟩,
                 resultOfResponse r' now) := by
              simp [executeRule, hg, hen, hc, postExecRule, resultOfResponse]
            refine ⟨_, _, hrun, rfl, ?_, ?_, ?_⟩
            · intro hcontra
              exact absurd hcontra (by decide)
            · intro msg hmsg _
              exact absurd hmsg (by simp)
            · intro r'' hr'' _
              obtain rfl : r' = r'' := by simpa using hr''
              exact ⟨rfl, rfl⟩
      obtain ⟨st', res, hrun, hhist, hcond, herr, hpass⟩ := hok
      constructor
      · constructor
        · rintro ⟨e, he⟩
          rw [hrun] at he
          exact absurd he (by simp)
        · rintro (hnone | ⟨r₀, hr₀, hen₀⟩)
          · exact absurd hnone (by simp)
          · obtain rfl : rule = r₀ := by simpa using hr₀
            rw [hen] at hen₀
            exact absurd hen₀ (by decide)
      · intro rule' hr' _
        obtain rfl : rule = rule' := by simpa using hr'
        refine ⟨st', res, hrun, ?_, hcond, herr, hpass⟩
        show ((mapGet rid st'.executionHistory).getD []).length
          = ((mapGet rid st.executionHistory).getD []).length + 1
        rw [hhist]
        exact historyLen_appendHistory st.executionHistory rid res

end Airdrop

namespace Airdrop

/-- Closed instance of `c10_executeRule_totality`: the enabled ZkSync rule
with a matching context resolves. -/
theorem c10_executeRule_totality_witness :
    mapGet "zk_sync_airdrop"
      (⟨[("zk_sync_airdrop", c1Rule)], []⟩ : EngineState).rules = some c1Rule ∧
    c1Rule.enabled = true ∧
    (executeRule ⟨[("zk_sync_airdrop", c1Rule)], []⟩ "zk_sync_airdrop"
        ⟨some c1Opp, none, none⟩
        (Except.ok { success := true, executionTime := 5 }) 7).isOk = true := by
  refine ⟨by decide, rfl, ?_⟩
  obtain ⟨st', res, hrun, -⟩ :=
    (c10_executeRule_totality ⟨[("zk_sync_airdrop", c1Rule)], []⟩ "zk_sync_airdrop"
      ⟨some c1Opp, none, none⟩
      (Except.ok { success := true, executionTime := 5 }) 7).2 c1Rule (by decide) rfl
  rw [hrun]
  rfl

theorem shouldExecute_imp_check (rule : AirdropRule) (ctx : RuleExecutionContext)
    (now : ℕ) (h : shouldExecuteRule rule ctx now = true) :
    checkRuleConditions rule ctx = true := by
  unfold shouldExecuteRule at h
  cases hl : rule.lastExecuted with
  | none =>
    rw [hl] at h
    simpa using h
  | some t =>
    rw [hl] at h
    by_cases hw : (now : ℤ) - (t : ℤ) < 3600000
    · simp [hw] at h
    · simpa [hw] using h

theorem engineTick_exec (st : EngineState) (rid : String) (ctx : RuleExecutionContext)
    (r : LitActionResult) (now : ℕ) (rule : AirdropRule)
    (hg : mapGet rid st.rules = some rule) (hen : rule.enabled = true)
    (hs : shouldExecuteRule rule ctx now = true) :
    engineTick st rid ctx r now
      = ⟨mapSet rid (postExecRule rule r now) st.rules,
         appendHistory st.executionHistory rid (resultOfResponse r now)⟩ := by
  have hc := shouldExecute_imp_check rule ctx now hs
  simp [engineTick, hg, hen, hs, executeRule, hc, postExecRule, resultOfResponse]

theorem engineTick_skip (st : EngineState) (rid : String) (ctx : RuleExecutionContext)
    (r : LitActionResult) (now : ℕ) (rule : AirdropRule)
    (hg : mapGet rid st.rules = some rule)
    (hs : shouldExecuteRule rule ctx now = false) :
    engineTick st rid ctx r now = st := by
  simp [engineTick, hg, hs]

/-- Whether a tick executes for rule `rid` in state `st`: the rule is
present, enabled, and passes the cool-down + condition gate. -/
def isExecTick (st : EngineState) (rid : String) (i : TickIn) : Bool :=
  match mapGet rid st.rules with
  | some r => r.enabled && shouldExecuteRule r i.ctx i.now
  | none => false

/-- Number of executing ticks along a trace (state-dependent, following
the run). -/
def execTicks (rid : String) : EngineState → List TickIn → ℕ
  | _, [] => 0
  | st, i :: l =>
    (if isExecTick st rid i then 1 else 0)
      + execTicks rid (engineTick st rid i.ctx i.res i.now) l

/-- C4: along any trace of scheduler ticks, an enabled rule's execution
counter ends at its starting value plus exactly the number of executing
ticks (so after N completed executions from a fresh rule it equals N, and
it never decreases); per tick, an execution attempt — whatever the
executor result's success flag — bumps the counter by one and stamps
`lastExecuted` with the tick's clock, while a skipped tick (cool-down or
non-matching condition) leaves the whole engine state untouched. -/
theorem c4_monotonic_counters (st : EngineState) (rid : String) (rule : AirdropRule)
    (L : List TickIn) (hg : mapGet rid st.rules = some rule)
    (hen : rule.enabled = true) :
    (∃ rule', mapGet rid (runTicks rid st L).rules = some rule' ∧
      rule'.enabled = true ∧
      rule'.executions = rule.executions + execTicks rid st L) ∧
    (∀ ctx r now,
      (shouldExecuteRule rule ctx now = true →
        ∃ rule'', mapGet rid (engineTick st rid ctx r now).rules = some rule'' ∧
          rule''.executions = rule.executions + 1 ∧
          rule''.lastExecuted = some now) ∧
      (shouldExecuteRule rule ctx now = false →
        engineTick st rid ctx r now = st)) := by
  have trace : ∀ (l : List TickIn) (s : EngineState) (ru : AirdropRule),
      mapGet rid s.rules = some ru → ru.enabled = true →
      ∃ rule', mapGet rid (runTicks rid s l).rules = some rule' ∧
        rule'.enabled = true ∧
        rule'.executions = ru.executions + execTicks rid s l := by
    intro l
    induction l with
    | nil =>
      intro s ru hgs hens
      exact ⟨ru, hgs, hens, by simp [runTicks, execTicks]⟩
    | cons i t ih =>
      intro s ru hgs hens
      by_cases hs : shouldExecuteRule ru i.ctx i.now = true
      · have hstep := engineTick_exec s rid i.ctx i.res i.now ru hgs hens hs
        have hg' : mapGet rid (engineTick s rid i.ctx i.res i.now).rules
            = some (postExecRule ru i.res i.now) := by
          rw [hstep]
          exact mapGet_mapSet_self _ _ _
        have hen' : (postExecRule ru i.res i.now).enabled = true := by
          simp [postExecRule, hens]
        obtain ⟨rule', h1, h2, h3⟩ := ih (engineTick s rid i.ctx i.res i.now)
          (postExecRule ru i.res i.now) hg' hen'
        have hexec : isExecTick s rid i = true := by
          simp [isExecTick, hgs, hens, hs]
        refine ⟨rule', h1, h2, ?_⟩
        rw [show execTicks rid s (i :: t)
            = (if isExecTick s rid i then 1 else 0)
              + execTicks rid (engineTick s rid i.ctx i.res i.now) t from rfl,
          hexec, if_pos rfl, h3]
        simp [postExecRule]
        omega
      · have hs' : shouldExecuteRule ru i.ctx i.now = false := by
          cases hx : shouldExecuteRule ru i.ctx i.now
          · rfl
          · exact absurd hx hs
        have hstep := engineTick_skip s rid i.ctx i.res i.now ru hgs hs'
        obtain ⟨rule', h1, h2, h3⟩ := ih s ru hgs hens
        have hexec : isExecTick s rid i = false := by
          simp [isExecTick, hgs, hs']
        refine ⟨rule', ?_, h2, ?_⟩
        · rw [show runTicks rid s (i :: t)
              = runTicks rid (engineTick s rid i.ctx i.res i.now) t from rfl, hstep]
          exact h1
        · rw [show execTicks rid s (i :: t)
              = (if isExecTick s rid i then 1 else 0)
                + execTicks rid (engineTick s rid i.ctx i.res i.now) t from rfl,
            hexec, hstep, h3]
          simp
  refine ⟨trace L st rule hg hen, ?_⟩
  intro ctx r now
  constructor
  · intro hs
    refine ⟨postExecRule rule r now, ?_, by simp [postExecRule], by simp [postExecRule]⟩
    rw [engineTick_exec st rid ctx r now rule hg hen hs]
    exact mapGet_mapSet_self _ _ _
  · intro hs
    exact engineTick_skip st rid ctx r now rule hg hs

/-- Closed instance of `c4_monotonic_counters`: a tick whose context does
not match skips, leaving the engine state untouched. -/
theorem c4_monotonic_counters_witness :
    shouldExecuteRule c1Rule ⟨none, none, none⟩ 9 = false ∧
    engineTick ⟨[("zk_sync_airdrop", c1Rule)], []⟩ "zk_sync_airdrop"
      ⟨none, none, none⟩ { success := true, executionTime := 1 } 9
      = ⟨[("zk_sync_airdrop", c1Rule)], []⟩ := by
  refine ⟨by decide, ?_⟩
  exact ((c4_monotonic_counters ⟨[("zk_sync_airdrop", c1Rule)], []⟩ "zk_sync_airdrop"
    c1Rule [] (by decide) rfl).2 ⟨none, none, none⟩
    { success := true, executionTime := 1 } 9).2 (by decide)

end Airdrop

namespace Airdrop

theorem monApply_config (st : MonitorState) (sp : MonStep) :
    (monApply st sp).config = st.config := by
  cases sp with
  | enqueue o r now => rfl
  | matchTick rules now => exact (matchStep_spec st rules now).2.2.2
  | expireTick now => rfl
  | addOpp o => rfl
  | drainStart =>
    show (processExecutionQueueStart st).config = st.config
    unfold processExecutionQueueStart
    repeat first | rfl | split
  | complete eid outcome =>
    show (execCompletion st eid outcome).config = st.config
    unfold execCompletion
    repeat first | rfl | split

theorem monApply_cap (st : MonitorState) (sp : MonStep)
    (h : st.activeExecutions.length ≤ st.config.maxConcurrentExecutions) :
    (monApply st sp).activeExecutions.length
      ≤ (monApply st sp).config.maxConcurrentExecutions := by
  rw [monApply_config st sp]
  cases sp with
  | enqueue o r now => simpa [monApply, addToExecutionQueue] using h
  | matchTick rules now =>
    rw [show (monApply st (MonStep.matchTick rules now)).activeExecutions
      = st.activeExecutions from (matchStep_spec st rules now).2.1]
    exact h
  | expireTick now => simpa [monApply, updateExistingOpportunities] using h
  | addOpp o => simpa [monApply, addOpportunity] using h
  | drainStart =>
    show (processExecutionQueueStart st).activeExecutions.length
      ≤ st.config.maxConcurrentExecutions
    cases hq : st.executionQueue with
    | nil => simpa [processExecutionQueueStart, hq] using h
    | cons eid rest =>
      by_cases hcap : st.activeExecutions.length ≥ st.config.maxConcurrentExecutions
      · simpa [processExecutionQueueStart, hq, hcap] using h
      · push_neg at hcap
        by_cases he : eid = ""
        · simpa [processExecutionQueueStart, hq, not_le.mpr hcap, he] using h
        · cases hctx : mapGet eid st.contexts with
          | none =>
            simpa [processExecutionQueueStart, hq, not_le.mpr hcap, he, hctx] using h
          | some c =>
            simp only [processExecutionQueueStart, hq, not_le.mpr hcap, if_false, he,
              hctx]
            have : (setAdd eid st.activeExecutions).length
                ≤ st.activeExecutions.length + 1 := by
              unfold setAdd
              split
              · omega
              · simp
            simp only [setAdd] at this ⊢
            split
            · exact le_of_lt hcap
            · simp only [List.length_append, List.length_singleton]
              omega
  | complete eid outcome =>
    show (execCompletion st eid outcome).activeExecutions.length
      ≤ st.config.maxConcurrentExecutions
    have hdel : ∀ l : List String, (setDelete eid l).length ≤ l.length := by
      intro l
      exact List.length_filter_le _ l
    cases outcome with
    | error e =>
      exact le_trans (by simpa [execCompletion] using hdel st.activeExecutions) h
    | ok res =>
      cases hctx : mapGet eid st.contexts with
      | none =>
        exact le_trans (by simpa [execCompletion, hctx] using hdel st.activeExecutions) h
      | some c =>
        exact le_trans (by simpa [execCompletion, hctx] using hdel st.activeExecutions) h

theorem monRun_config (steps : List MonStep) : ∀ st : MonitorState,
    (monRun st steps).config = st.config := by
  induction steps with
  | nil => intro st; rfl
  | cons sp t ih =>
    intro st
    rw [show monRun st (sp :: t) = monRun (monApply st sp) t from rfl, ih,
      monApply_config]

theorem monRun_cap (steps : List MonStep) : ∀ st : MonitorState,
    st.activeExecutions.length ≤ st.config.maxConcurrentExecutions →
    (monRun st steps).activeExecutions.length
      ≤ (monRun st steps).config.maxConcurrentExecutions := by
  induction steps with
  | nil => intro st h; exact h
  | cons sp t ih =>
    intro st h
    exact ih (monApply st sp) (monApply_cap st sp h)

/-- C3: in every reachable monitor state the number of in-flight
executions stays at or below `maxConcurrentExecutions`, which the
constructor fixes at 5; and when the in-flight count has reached the cap,
the drain pass is a no-op — a queued match is popped and dispatched only
strictly below the cap. -/
theorem c3_concurrency_cap (s : MonitorState) (h : MonReachable s) :
    s.activeExecutions.length ≤ s.config.maxConcurrentExecutions ∧
    s.config.maxConcurrentExecutions = 5 ∧
    (s.executionQueue ≠ [] →
      s.config.maxConcurrentExecutions ≤ s.activeExecutions.length →
      processExecutionQueueStart s = s) := by
  obtain ⟨t0, steps, rfl⟩ := h
  refine ⟨?_, ?_, ?_⟩
  · exact monRun_cap steps (initMonitorState t0) (by simp [initMonitorState, initConfig])
  · rw [monRun_config]
    rfl
  · intro hne hcap
    cases hq : (monRun (initMonitorState t0) steps).executionQueue with
    | nil => exact absurd hq hne
    | cons eid rest =>
      simp only [processExecutionQueueStart, hq]
      rw [if_pos hcap]

/-- Closed instance of `c3_concurrency_cap` at the constructor state. -/
theorem c3_concurrency_cap_witness :
    MonReachable (initMonitorState 0) ∧
    (initMonitorState 0).activeExecutions.length
      ≤ (initMonitorState 0).config.maxConcurrentExecutions ∧
    (initMonitorState 0).config.maxConcurrentExecutions = 5 :=
  ⟨⟨0, [], rfl⟩, (c3_concurrency_cap (initMonitorState 0) ⟨0, [], rfl⟩).1,
    (c3_concurrency_cap (initMonitorState 0) ⟨0, [], rfl⟩).2.1⟩

end Airdrop
